import Mathlib

/-!
Verification of the PriceSpy price-comparison and shopping-list engine.

The repository ships the frontend screens (`supermarkets.tsx`, `lists.tsx`,
`index.tsx`, `compare.tsx`); the backend (`server.py`, holding the Matcher,
Comparator, List Optimizer and Alert Evaluator) is referenced by the test log
but is not part of the source tree here, so those components are modelled
from the specification's own words and marked as such.  Frontend helpers
(`calculateSavings`, `calculateTotalSavings`, `toggleItem`) are embedded
directly from the TypeScript source.
-/

namespace PriceSpy

/-- Modelled from the spec (data model): one retailer's current offer for one
product.  `price` is a positive decimal amount, `originalPrice` optional,
`validFrom`/`validUntil` an optional date range (days encoded as naturals). -/
structure PriceRecord where
  id : String
  name : String
  price : ℤ
  originalPrice : Option ℤ
  retailerId : String
  retailerName : String
  validFrom : Option Nat
  validUntil : Option Nat
  deriving DecidableEq

/-- Modelled from the spec (Matcher normalization): case-fold a character and
strip its diacritic; whitespace characters are left unchanged. -/
def charFold (c : Char) : Char :=
  if c.isWhitespace then c
  else if 'A' ≤ c ∧ c ≤ 'Z' then Char.ofNat (c.toNat + 32)
  else if c = 'ä' ∨ c = 'Ä' then 'a'
  else if c = 'ö' ∨ c = 'Ö' then 'o'
  else if c = 'ü' ∨ c = 'Ü' then 'u'
  else if c = 'é' ∨ c = 'è' ∨ c = 'É' ∨ c = 'È' then 'e'
  else c

/-- Split a character list at whitespace; runs of whitespace yield empty
segments which are filtered out by `wordsOf`. -/
def splitRuns (l : List Char) : List (List Char) :=
  l.foldr
    (fun c acc =>
      if c.isWhitespace then [] :: acc
      else
        match acc with
        | [] => [[c]]
        | w :: ws => (c :: w) :: ws)
    []

/-- The maximal non-whitespace runs of a character list. -/
def wordsOf (l : List Char) : List (List Char) :=
  (splitRuns l).filter (fun w => !w.isEmpty)

/-- Modelled from the spec (Matcher normalization): case-fold, strip
diacritics, collapse internal whitespace to single spaces and trim the
ends. -/
def normalizeChars (l : List Char) : List Char :=
  List.intercalate [' '] (wordsOf (l.map charFold))

/-- Normalization applied to a string, producing its character list. -/
def normalizeText (s : String) : List Char :=
  normalizeChars s.toList

/-- Whether the second list starts with the first. -/
def beginsWith : List Char → List Char → Bool
  | [], _ => true
  | _ :: _, [] => false
  | a :: as, b :: bs => a = b && beginsWith as bs

/-- Whether the needle occurs as a contiguous subsequence of the haystack. -/
def containsSeq (needle : List Char) : List Char → Bool
  | [] => needle.isEmpty
  | c :: rest => beginsWith needle (c :: rest) || containsSeq needle rest

/-- Modelled from the spec: a record is current when today falls in its
validity window, or the window is absent. -/
def validOn (today : Nat) (r : PriceRecord) : Bool :=
  (match r.validFrom with
   | none => true
   | some d => decide (d ≤ today)) &&
  (match r.validUntil with
   | none => true
   | some d => decide (today ≤ d))

/-- Modelled from the spec: `Matcher.match` is missing from the source tree
(only its frontend callers are present).  The query is normalized; an empty
normalized query matches nothing; otherwise a record matches when its
retailer is active, its validity window includes today, and its normalized
name contains the normalized query as a substring. -/
def Matcher.matchQuery (today : Nat) (query : String)
    (records : List PriceRecord) (activeIds : List String) : List PriceRecord :=
  if (normalizeText query).isEmpty then []
  else
    records.filter (fun r =>
      decide (r.retailerId ∈ activeIds) && validOn today r &&
        containsSeq (normalizeText query) (normalizeText r.name))

/-- Lexicographic less-or-equal on character lists, used for the retailer-name
tie-break (ascending name order). -/
def lexLeb : List Char → List Char → Bool
  | [], _ => true
  | _ :: _, [] => false
  | a :: as, b :: bs => if a < b then true else if b < a then false else lexLeb as bs

/-- Modelled from the spec (Comparator sort key): price ascending, ties broken
by retailer name ascending. -/
def priceOrder (a b : PriceRecord) : Prop :=
  a.price < b.price ∨
    (a.price = b.price ∧ lexLeb a.retailerName.toList b.retailerName.toList = true)

instance : DecidableRel priceOrder := fun a b =>
  inferInstanceAs
    (Decidable (a.price < b.price ∨
      (a.price = b.price ∧ lexLeb a.retailerName.toList b.retailerName.toList = true)))

/-- The result shape of the Comparator: the matches sorted ascending by price
and the cheapest record, or null. -/
structure ComparisonResult where
  results : List PriceRecord
  cheapest : Option PriceRecord
  deriving DecidableEq

/-- Modelled from the spec: `Comparator.compare` is missing from the source
tree.  It stably sorts the matches by `priceOrder` and reports the first
element of the sorted results as cheapest, or null when there are none. -/
def Comparator.compare (ms : List PriceRecord) : ComparisonResult :=
  { results := List.insertionSort priceOrder ms,
    cheapest := (List.insertionSort priceOrder ms).head? }

/-- One entry of a shopping list as the Optimizer consumes it. -/
structure PlanItem where
  productName : String
  quantity : Nat
  deriving DecidableEq

/-- One optimized line: the item together with its assigned retailer and line
total (both null for the "Not Found" sentinel), plus the original-price line
total used for the savings metric. -/
structure Assignment where
  productName : String
  quantity : Nat
  retailer : Option String
  unitPrice : Option ℤ
  lineTotal : Option ℤ
  origTotal : Option ℤ
  deriving DecidableEq

/-- Modelled from the spec (List Optimizer steps 1-4): match the item, take
the cheapest record, and assign the item to that retailer at the record's
price; with no match, assign it to the "Not Found" sentinel with null unit
price and line total. -/
def assignItem (today : Nat) (records : List PriceRecord)
    (activeIds : List String) (it : PlanItem) : Assignment :=
  match (Comparator.compare (Matcher.matchQuery today it.productName records activeIds)).cheapest with
  | some r =>
      { productName := it.productName, quantity := it.quantity,
        retailer := some r.retailerName, unitPrice := some r.price,
        lineTotal := some (r.price * (it.quantity : ℤ)),
        origTotal := some ((r.originalPrice.getD r.price) * (it.quantity : ℤ)) }
  | none =>
      { productName := it.productName, quantity := it.quantity,
        retailer := none, unitPrice := none, lineTotal := none, origTotal := none }

/-- First-appearance-order deduplication: retailers appear in the order their
first matched item was processed. -/
def dedupFirst : List String → List String
  | [] => []
  | k :: rest => k :: (dedupFirst rest).filter (fun x => decide (x ≠ k))

/-- A per-retailer group of the optimized plan (`retailer = none` is the
"Not Found" group). -/
structure RetailerGroup where
  retailer : Option String
  items : List Assignment
  subtotal : ℤ
  deriving DecidableEq

/-- Sum of the non-null line totals of the assignments carrying the given
retailer key. -/
def groupSubtotal (asg : List Assignment) (k : Option String) : ℤ :=
  ((asg.filter (fun a => decide (a.retailer = k))).filterMap Assignment.lineTotal).sum

/-- The group for one retailer key: its assignments and their subtotal. -/
def mkGroup (asg : List Assignment) (k : Option String) : RetailerGroup :=
  { retailer := k,
    items := asg.filter (fun a => decide (a.retailer = k)),
    subtotal := groupSubtotal asg k }

/-- Modelled from the spec: groups in retailer first-appearance order with the
"Not Found" group last, present only when some item found no match. -/
def planGroups (asg : List Assignment) : List RetailerGroup :=
  (dedupFirst (asg.filterMap Assignment.retailer)).map (fun k => mkGroup asg (some k)) ++
    (if (asg.filter (fun a => decide (a.retailer = none))).isEmpty then []
     else [mkGroup asg none])

/-- The total cost of a plan: the sum of all non-null line totals. -/
def planTotalCost (asg : List Assignment) : ℤ :=
  (asg.filterMap Assignment.lineTotal).sum

/-- The optimized plan returned to the caller. -/
structure OptimizedPlan where
  groups : List RetailerGroup
  totalCost : ℤ
  potentialSavings : ℤ
  deriving DecidableEq

/-- Modelled from the spec: the List Optimizer is missing from the source
tree.  Each item is independently assigned to the retailer of its cheapest
match; assignments are grouped by retailer with the "Not Found" group last;
`potentialSavings` is the original-price total minus the sale-price total. -/
def optimize (today : Nat) (records : List PriceRecord)
    (activeIds : List String) (items : List PlanItem) : OptimizedPlan :=
  { groups := planGroups (items.map (assignItem today records activeIds)),
    totalCost := planTotalCost (items.map (assignItem today records activeIds)),
    potentialSavings :=
      ((items.map (assignItem today records activeIds)).filterMap Assignment.origTotal).sum -
        planTotalCost (items.map (assignItem today records activeIds)) }

/-- One row of the `/api/products/compare` response as the frontend
CompareScreen declares it (interface `CompareResult`). -/
structure CompareResult where
  name : String
  price : ℤ
  original_price : Option ℤ
  supermarket_name : String
  supermarket_id : String
  deriving DecidableEq

/-- JavaScript `Math.max` over a price list; its call sites only apply it to
lists with at least two elements. -/
def maxPrice : List ℤ → ℤ
  | [] => 0
  | p :: ps => ps.foldl max p

/-- `calculateSavings` from CompareScreen: 0 when there is no cheapest result
or fewer than two results, otherwise the highest result price minus the given
price. -/
def calculateSavings (cheapest : Option CompareResult)
    (results : List CompareResult) (price : ℤ) : ℤ :=
  if cheapest = none ∨ results.length < 2 then 0
  else maxPrice (results.map CompareResult.price) - price

/-- A shopping-list item as `lists.tsx` declares it. -/
structure ShoppingListItem where
  product_name : String
  quantity : Nat
  checked : Bool
  best_price : Option ℤ
  best_supermarket : Option String
  deriving DecidableEq

/-- `calculateTotalSavings` from ListsScreen: reduce over all items of
`(item.best_price || 0) * item.quantity`. -/
def calculateTotalSavings (items : List ShoppingListItem) : ℤ :=
  items.foldl (fun total item => total + item.best_price.getD 0 * (item.quantity : ℤ)) 0

/-- The local-state items update performed by `toggleItem` in ListsScreen: the
item at the given index gets its `checked` flag negated, everything else is
kept. -/
def toggleItem : List ShoppingListItem → Nat → List ShoppingListItem
  | [], _ => []
  | it :: rest, 0 => { it with checked := !it.checked } :: rest
  | it :: rest, n + 1 => it :: toggleItem rest n

/-- A sample Aldi butter record at price 2. -/
def sampleAldi : PriceRecord :=
  { id := "p1", name := "Butter 250g", price := 2, originalPrice := none,
    retailerId := "r1", retailerName := "Aldi", validFrom := none, validUntil := none }

/-- A sample Rewe butter record at price 3 with original price 4. -/
def sampleRewe : PriceRecord :=
  { id := "p2", name := "Markenbutter", price := 3, originalPrice := some 4,
    retailerId := "r2", retailerName := "Rewe", validFrom := none, validUntil := none }

/-- A sample record whose price and retailer tie with `sampleTieD`. -/
def sampleTieC : PriceRecord :=
  { id := "p3", name := "Quark 500g", price := 3, originalPrice := none,
    retailerId := "r2", retailerName := "Rewe", validFrom := none, validUntil := none }

/-- A second record with the same price and retailer name as `sampleTieC` but
a different identity. -/
def sampleTieD : PriceRecord :=
  { id := "p4", name := "Quark Mager 500g", price := 3, originalPrice := none,
    retailerId := "r2", retailerName := "Rewe", validFrom := none, validUntil := none }

/-- A sample record named with a diacritic, as in the spec's example. -/
def sampleApfel : PriceRecord :=
  { id := "p5", name := "Äpfel", price := 2, originalPrice := none,
    retailerId := "r1", retailerName := "Aldi", validFrom := none, validUntil := none }

/-- A sample comparison row at price 2. -/
def resCheap : CompareResult :=
  { name := "Butter 250g", price := 2, original_price := none,
    supermarket_name := "Aldi", supermarket_id := "r1" }

/-- A sample comparison row at price 3. -/
def resDear : CompareResult :=
  { name := "Markenbutter", price := 3, original_price := some 4,
    supermarket_name := "Rewe", supermarket_id := "r2" }

/-- A sample checked list item with a known best price. -/
def itemMilk : ShoppingListItem :=
  { product_name := "Milch", quantity := 2, checked := false,
    best_price := some 1, best_supermarket := some "Aldi" }

/-- A sample unchecked list item with no known best price. -/
def itemBread : ShoppingListItem :=
  { product_name := "Brot", quantity := 1, checked := true,
    best_price := none, best_supermarket := none }


/-! ## Order lemmas for the Comparator sort key -/

theorem lexLeb_cons_cons (a b : Char) (as bs : List Char) :
    lexLeb (a :: as) (b :: bs)
      = if a < b then true else if b < a then false else lexLeb as bs :=
  rfl

theorem lexLeb_total : ∀ x y : List Char, lexLeb x y = true ∨ lexLeb y x = true
  | [], _ => Or.inl rfl
  | _ :: _, [] => Or.inr rfl
  | a :: as, b :: bs => by
    rw [lexLeb_cons_cons, lexLeb_cons_cons]
    rcases lt_trichotomy a b with h | h | h
    · simp [h]
    · subst h
      simpa [lt_irrefl] using lexLeb_total as bs
    · simp [h, not_lt_of_gt h]

theorem lexLeb_trans :
    ∀ x y z : List Char, lexLeb x y = true → lexLeb y z = true → lexLeb x z = true
  | [], _, _, _, _ => rfl
  | _ :: _, [], _, h, _ => by simp [lexLeb] at h
  | _ :: _, _ :: _, [], _, h => by simp [lexLeb] at h
  | a :: as, b :: bs, c :: cs, h1, h2 => by
    rw [lexLeb_cons_cons] at h1 h2 ⊢
    rcases lt_trichotomy a b with hab | hab | hab
    · rcases lt_trichotomy b c with hbc | hbc | hbc
      · simp [hab.trans hbc]
      · subst hbc; simp [hab]
      · rw [if_neg (not_lt_of_gt hbc), if_pos hbc] at h2; exact absurd h2 (by simp)
    · subst hab
      rw [if_neg (lt_irrefl a), if_neg (lt_irrefl a)] at h1
      rcases lt_trichotomy a c with h | h | h
      · simp [h]
      · subst h
        rw [if_neg (lt_irrefl a), if_neg (lt_irrefl a)] at h2 ⊢
        exact lexLeb_trans as bs cs h1 h2
      · rw [if_neg (not_lt_of_gt h), if_pos h] at h2; exact absurd h2 (by simp)
    · rw [if_neg (not_lt_of_gt hab), if_pos hab] at h1; exact absurd h1 (by simp)

theorem lexLeb_antisymm :
    ∀ x y : List Char, lexLeb x y = true → lexLeb y x = true → x = y
  | [], [], _, _ => rfl
  | [], _ :: _, _, h => by simp [lexLeb] at h
  | _ :: _, [], h, _ => by simp [lexLeb] at h
  | a :: as, b :: bs, h1, h2 => by
    rw [lexLeb_cons_cons] at h1 h2
    rcases lt_trichotomy a b with hab | hab | hab
    · rw [if_neg (not_lt_of_gt hab), if_pos hab] at h2; exact absurd h2 (by simp)
    · subst hab
      rw [if_neg (lt_irrefl a), if_neg (lt_irrefl a)] at h1 h2
      rw [lexLeb_antisymm as bs h1 h2]
    · rw [if_neg (not_lt_of_gt hab), if_pos hab] at h1; exact absurd h1 (by simp)

theorem priceOrder_total : ∀ a b : PriceRecord, priceOrder a b ∨ priceOrder b a := by
  intro a b
  rcases lt_trichotomy a.price b.price with h | h | h
  · exact Or.inl (Or.inl h)
  · rcases lexLeb_total a.retailerName.toList b.retailerName.toList with hn | hn
    · exact Or.inl (Or.inr ⟨h, hn⟩)
    · exact Or.inr (Or.inr ⟨h.symm, hn⟩)
  · exact Or.inr (Or.inl h)

theorem priceOrder_trans :
    ∀ a b c : PriceRecord, priceOrder a b → priceOrder b c → priceOrder a c := by
  intro a b c hab hbc
  rcases hab with h1 | ⟨e1, n1⟩ <;> rcases hbc with h2 | ⟨e2, n2⟩
  · exact Or.inl (h1.trans h2)
  · exact Or.inl (h1.trans_eq e2)
  · exact Or.inl (e1.trans_lt h2)
  · exact Or.inr ⟨e1.trans e2, lexLeb_trans _ _ _ n1 n2⟩

theorem priceOrder_antisymm_fields {a b : PriceRecord}
    (hab : priceOrder a b) (hba : priceOrder b a) :
    a.price = b.price ∧ a.retailerName = b.retailerName := by
  rcases hab with h1 | ⟨e1, n1⟩ <;> rcases hba with h2 | ⟨e2, n2⟩
  · exact absurd (h1.trans h2) (lt_irrefl _)
  · exact absurd (h1.trans_eq e2) (lt_irrefl _)
  · exact absurd (h2.trans_eq e1) (lt_irrefl _)
  · refine ⟨e1, ?_⟩
    have hdata := lexLeb_antisymm _ _ n1 n2
    cases ha : a.retailerName
    cases hb : b.retailerName
    rw [ha, hb] at hdata
    exact congrArg String.mk (by simpa using hdata)

theorem sorted_insertionSort_priceOrder (l : List PriceRecord) :
    List.Sorted priceOrder (List.insertionSort priceOrder l) := by
  haveI : IsTotal PriceRecord priceOrder := ⟨priceOrder_total⟩
  haveI : IsTrans PriceRecord priceOrder := ⟨priceOrder_trans⟩
  exact List.sorted_insertionSort priceOrder l

theorem insertionSort_of_sorted {l : List PriceRecord}
    (h : List.Sorted priceOrder l) : List.insertionSort priceOrder l = l := by
  haveI : IsTotal PriceRecord priceOrder := ⟨priceOrder_total⟩
  haveI : IsTrans PriceRecord priceOrder := ⟨priceOrder_trans⟩
  exact h.insertionSort_eq

theorem sorted_perm_eq :
    ∀ {l₁ l₂ : List PriceRecord}, List.Perm l₁ l₂ →
      List.Sorted priceOrder l₁ → List.Sorted priceOrder l₂ →
      (∀ a ∈ l₁, ∀ b ∈ l₁, priceOrder a b → priceOrder b a → a = b) →
      l₁ = l₂ := by
  intro l₁
  induction l₁ with
  | nil =>
    intro l₂ hp _ _ _
    exact (hp.symm.eq_nil).symm
  | cons a t₁ ih =>
    intro l₂ hp hs₁ hs₂ hanti
    cases l₂ with
    | nil => exact absurd hp.eq_nil (by simp)
    | cons b t₂ =>
      by_cases hab : a = b
      · subst hab
        have hp' : List.Perm t₁ t₂ := hp.cons_inv
        have htail := ih hp' hs₁.of_cons hs₂.of_cons
          (fun x hx y hy => hanti x (List.mem_cons_of_mem _ hx) y (List.mem_cons_of_mem _ hy))
        rw [htail]
      · exfalso
        have haInl2 : a ∈ b :: t₂ := hp.subset (List.mem_cons_self a t₁)
        have hbInl1 : b ∈ a :: t₁ := hp.symm.subset (List.mem_cons_self b t₂)
        have haT2 : a ∈ t₂ := (List.mem_cons.mp haInl2).resolve_left hab
        have hbT1 : b ∈ t₁ := (List.mem_cons.mp hbInl1).resolve_left (fun h => hab h.symm)
        have h1 : priceOrder a b := List.rel_of_sorted_cons hs₁ b hbT1
        have h2 : priceOrder b a := List.rel_of_sorted_cons hs₂ a haT2
        exact hab (hanti a (List.mem_cons_self a t₁) b (List.mem_cons_of_mem a hbT1) h1 h2)

/-! ## Comparator claims -/

/-- C1: for every matches sequence, `Comparator.compare` returns results
sorted ascending by price, the cheapest is the first element of the results,
and whenever the cheapest is non-null its price is less than or equal to the
price of every record in the matches. -/
theorem compare_sorted_and_cheapest_min (ms : List PriceRecord) :
    List.Pairwise (fun a b : PriceRecord => a.price ≤ b.price)
      (Comparator.compare ms).results ∧
    (Comparator.compare ms).cheapest = (Comparator.compare ms).results.head? ∧
    ∀ c, (Comparator.compare ms).cheapest = some c → ∀ r ∈ ms, c.price ≤ r.price := by
  have hsorted := sorted_insertionSort_priceOrder ms
  refine ⟨List.Pairwise.imp (fun h => h.elim le_of_lt (fun e => le_of_eq e.1)) hsorted,
    rfl, ?_⟩
  intro c hc r hr
  have hmem : r ∈ List.insertionSort priceOrder ms := by
    haveI : IsTotal PriceRecord priceOrder := ⟨priceOrder_total⟩
    haveI : IsTrans PriceRecord priceOrder := ⟨priceOrder_trans⟩
    exact (List.perm_insertionSort priceOrder ms).mem_iff.mpr hr
  have hc2 : (List.insertionSort priceOrder ms).head? = some c := hc
  cases hs : List.insertionSort priceOrder ms with
  | nil => rw [hs] at hmem; exact absurd hmem (List.not_mem_nil r)
  | cons d t =>
    rw [hs] at hc2 hmem hsorted
    have hdc : d = c := Option.some.inj hc2
    subst hdc
    rcases List.mem_cons.mp hmem with h | h
    · exact le_of_eq (by rw [h])
    · exact (List.rel_of_sorted_cons hsorted r h).elim le_of_lt (fun e => le_of_eq e.1)

/-- C1 witness: on the spec example catalog the cheapest is the Aldi record at
price 2, bounded by the Rewe price 3. -/
theorem compare_sorted_and_cheapest_min_witness :
    (Comparator.compare [sampleRewe, sampleAldi]).cheapest = some sampleAldi ∧
    sampleAldi.price ≤ sampleRewe.price :=
  ⟨by decide,
   (compare_sorted_and_cheapest_min [sampleRewe, sampleAldi]).2.2 sampleAldi (by decide)
     sampleRewe (by decide)⟩

/-- C5: comparing an empty matches sequence yields empty results and a null
cheapest, as a normal value rather than an error. -/
theorem compare_nil : Comparator.compare [] = { results := [], cheapest := none } :=
  rfl

/-- C6 counterexample: with two distinct records sharing the same price and
retailer name, the sorted results depend on the input order, so the claim's
universal permutation invariance fails. -/
theorem compare_perm_invariance_counterexample :
    List.Perm [sampleTieD, sampleTieC] [sampleTieC, sampleTieD] ∧
    (Comparator.compare [sampleTieD, sampleTieC]).results
      ≠ (Comparator.compare [sampleTieC, sampleTieD]).results :=
  ⟨List.Perm.swap sampleTieC sampleTieD [], by decide⟩

/-- C6 amended: `Comparator.compare` is idempotent on results for every input
and every reordering of it, and the results are independent of the input
order whenever no two distinct records share both price and retailer name. -/
theorem compare_idempotent_order_invariant (x y : List PriceRecord)
    (hperm : List.Perm y x) :
    (Comparator.compare (Comparator.compare y).results).results
        = (Comparator.compare y).results ∧
    ((∀ a ∈ x, ∀ b ∈ x, a.price = b.price → a.retailerName = b.retailerName → a = b) →
      (Comparator.compare y).results = (Comparator.compare x).results) := by
  constructor
  · exact insertionSort_of_sorted (sorted_insertionSort_priceOrder y)
  · intro hinj
    haveI : IsTotal PriceRecord priceOrder := ⟨priceOrder_total⟩
    haveI : IsTrans PriceRecord priceOrder := ⟨priceOrder_trans⟩
    have hp : List.Perm (List.insertionSort priceOrder y) (List.insertionSort priceOrder x) :=
      ((List.perm_insertionSort priceOrder y).trans hperm).trans
        (List.perm_insertionSort priceOrder x).symm
    refine sorted_perm_eq hp (sorted_insertionSort_priceOrder y)
      (sorted_insertionSort_priceOrder x) ?_
    intro a ha b hb hab hba
    have hax : a ∈ x := hperm.subset ((List.perm_insertionSort priceOrder y).subset ha)
    have hbx : b ∈ x := hperm.subset ((List.perm_insertionSort priceOrder y).subset hb)
    obtain ⟨hp1, hn1⟩ := priceOrder_antisymm_fields hab hba
    exact hinj a hax b hbx hp1 hn1

/-- C6 witness: idempotence and order-independence on the two-record example
catalog, whose records have distinct prices. -/
theorem compare_idempotent_order_invariant_witness :
    (Comparator.compare (Comparator.compare [sampleRewe, sampleAldi]).results).results
        = (Comparator.compare [sampleRewe, sampleAldi]).results ∧
    (Comparator.compare [sampleRewe, sampleAldi]).results
        = (Comparator.compare [sampleAldi, sampleRewe]).results :=
  ⟨(compare_idempotent_order_invariant [sampleAldi, sampleRewe] [sampleRewe, sampleAldi]
      (List.Perm.swap sampleAldi sampleRewe [])).1,
   (compare_idempotent_order_invariant [sampleAldi, sampleRewe] [sampleRewe, sampleAldi]
      (List.Perm.swap sampleAldi sampleRewe [])).2 (by decide)⟩

/-- C7: optimizing the empty item list yields a plan with no groups, total
cost 0 and potential savings 0. -/
theorem optimize_nil (today : Nat) (records : List PriceRecord) (activeIds : List String) :
    optimize today records activeIds []
      = { groups := [], totalCost := 0, potentialSavings := 0 } :=
  rfl


/-! ## Optimizer claims -/

theorem filterMap_lineTotal_split (p : Assignment → Bool) :
    ∀ l : List Assignment,
      (((l.filter p).filterMap Assignment.lineTotal).sum : ℤ) +
          ((l.filter (fun a => !p a)).filterMap Assignment.lineTotal).sum
        = (l.filterMap Assignment.lineTotal).sum := by
  intro l
  induction l with
  | nil => simp
  | cons a t ih =>
    by_cases hp : p a = true <;>
      cases hlt : a.lineTotal <;>
        simp [List.filter_cons, List.filterMap_cons, hp, hlt, ← ih] <;> ring

theorem groupSubtotal_erase_key {k q : String} (hne : q ≠ k) (l : List Assignment) :
    groupSubtotal (l.filter (fun a => !(decide (a.retailer = some k)))) (some q)
      = groupSubtotal l (some q) := by
  rw [groupSubtotal, groupSubtotal, List.filter_filter]
  have hpred : ∀ a : Assignment,
      (decide (a.retailer = some q) && !decide (a.retailer = some k))
        = decide (a.retailer = some q) := by
    intro a
    by_cases hq : a.retailer = some q
    · have hk : ¬(a.retailer = some k) := by
        rw [hq]
        exact fun he => hne (Option.some.inj he)
      simp [hq, hk, hne]
    · simp [hq]
  simp only [hpred]

theorem sum_groupSubtotals :
    ∀ (ks : List String) (l : List Assignment),
      ks.Nodup →
      (∀ a ∈ l, ∀ k, a.retailer = some k → k ∈ ks) →
      (∀ a ∈ l, a.retailer = none → a.lineTotal = none) →
      (ks.map (fun k => groupSubtotal l (some k))).sum = planTotalCost l := by
  intro ks
  induction ks with
  | nil =>
    intro l _ hcov hnone
    have hall : ∀ a ∈ l, a.lineTotal = none := by
      intro a ha
      cases hr : a.retailer with
      | none => exact hnone a ha hr
      | some k => exact absurd (hcov a ha k hr) (List.not_mem_nil k)
    rw [List.map_nil, List.sum_nil, planTotalCost, List.filterMap_eq_nil_iff.mpr hall,
      List.sum_nil]
  | cons k ks ih =>
    intro l hnd hcov hnone
    have hknotin : k ∉ ks := (List.nodup_cons.mp hnd).1
    have hmap : (ks.map (fun x => groupSubtotal l (some x))).sum
        = (ks.map (fun x =>
            groupSubtotal (l.filter (fun a => !(decide (a.retailer = some k)))) (some x))).sum := by
      refine congrArg List.sum (List.map_congr_left ?_)
      intro x hx
      have hne : x ≠ k := fun h => hknotin (h ▸ hx)
      exact (groupSubtotal_erase_key hne l).symm
    have hih := ih (l.filter (fun a => !(decide (a.retailer = some k))))
      (List.nodup_cons.mp hnd).2
      (by
        intro a ha q hq
        have hmem := List.mem_filter.mp ha
        have hnk : ¬(a.retailer = some k) := by
          have := hmem.2
          simpa using this
        rcases List.mem_cons.mp (hcov a hmem.1 q hq) with h | h
        · exact absurd (h ▸ hq) hnk
        · exact h)
      (fun a ha => hnone a (List.mem_filter.mp ha).1)
    rw [List.map_cons, List.sum_cons, hmap, hih]
    have hsplit := filterMap_lineTotal_split (fun a => decide (a.retailer = some k)) l
    rw [planTotalCost, planTotalCost]
    exact hsplit

theorem dedupFirst_nodup : ∀ l : List String, (dedupFirst l).Nodup
  | [] => List.nodup_nil
  | k :: rest => by
    rw [dedupFirst]
    refine List.nodup_cons.mpr ⟨?_, (dedupFirst_nodup rest).filter _⟩
    intro hmem
    have := (List.mem_filter.mp hmem).2
    simp at this

theorem mem_dedupFirst : ∀ {x : String} {l : List String}, x ∈ dedupFirst l ↔ x ∈ l := by
  intro x l
  induction l with
  | nil => simp [dedupFirst]
  | cons k rest ih =>
    rw [dedupFirst]
    by_cases hx : x = k
    · subst hx; simp
    · simp [List.mem_cons, List.mem_filter, hx, ih]

theorem assignItem_none_lineTotal (today : Nat) (records : List PriceRecord)
    (activeIds : List String) (it : PlanItem) :
    (assignItem today records activeIds it).retailer = none →
    (assignItem today records activeIds it).lineTotal = none := by
  rw [assignItem]
  cases (Comparator.compare (Matcher.matchQuery today it.productName records activeIds)).cheapest <;>
    simp

theorem groupSubtotal_none_zero {l : List Assignment}
    (hnone : ∀ a ∈ l, a.retailer = none → a.lineTotal = none) :
    groupSubtotal l none = 0 := by
  rw [groupSubtotal, List.filterMap_eq_nil_iff.mpr, List.sum_nil]
  intro a ha
  have hmem := List.mem_filter.mp ha
  have hr : a.retailer = none := by simpa using hmem.2
  exact hnone a hmem.1 hr

/-- C2: for every item list (and catalog), the sum of the per-retailer
subtotals over all groups of the optimized plan equals the plan's total cost;
null line totals, which occur exactly in the "Not Found" group, are excluded
from the subtotals. -/
theorem optimize_subtotals_eq_totalCost (today : Nat) (records : List PriceRecord)
    (activeIds : List String) (items : List PlanItem) :
    (((optimize today records activeIds items).groups).map RetailerGroup.subtotal).sum
      = (optimize today records activeIds items).totalCost := by
  have hnone : ∀ a ∈ items.map (assignItem today records activeIds),
      a.retailer = none → a.lineTotal = none := by
    intro a ha
    obtain ⟨it, _, rfl⟩ := List.mem_map.mp ha
    exact assignItem_none_lineTotal today records activeIds it
  show ((planGroups (items.map (assignItem today records activeIds))).map
      RetailerGroup.subtotal).sum
    = planTotalCost (items.map (assignItem today records activeIds))
  set asg := items.map (assignItem today records activeIds) with hasg
  rw [planGroups, List.map_append, List.sum_append, List.map_map]
  have hfound :
      ((dedupFirst (asg.filterMap Assignment.retailer)).map
        (RetailerGroup.subtotal ∘ fun k => mkGroup asg (some k))).sum
      = planTotalCost asg := by
    have heq : (RetailerGroup.subtotal ∘ fun k => mkGroup asg (some k))
        = fun k => groupSubtotal asg (some k) := rfl
    rw [heq]
    refine sum_groupSubtotals _ asg (dedupFirst_nodup _) ?_ hnone
    intro a ha q hq
    exact mem_dedupFirst.mpr (List.mem_filterMap.mpr ⟨a, ha, hq⟩)
  rw [hfound]
  by_cases hnf : (asg.filter (fun a => decide (a.retailer = none))).isEmpty
  · rw [if_pos hnf]
    simp
  · rw [if_neg hnf]
    have hz : groupSubtotal asg none = 0 := groupSubtotal_none_zero hnone
    simp [mkGroup, hz]


/-! ## Matcher claims -/

theorem normalizeText_congr {q1 q2 : String}
    (h : q1.toList.map charFold = q2.toList.map charFold) :
    normalizeText q1 = normalizeText q2 := by
  rw [normalizeText, normalizeText, normalizeChars, normalizeChars, h]

/-- C3: `Matcher.match` is case- and diacritic-insensitive: two queries whose
character sequences agree after per-character case folding and diacritic
stripping produce identical result sets on every record set and
active-retailer set, because query and record names are normalized before the
substring comparison. -/
theorem matchQuery_fold_insensitive (today : Nat) (records : List PriceRecord)
    (activeIds : List String) (q1 q2 : String)
    (h : q1.toList.map charFold = q2.toList.map charFold) :
    Matcher.matchQuery today q1 records activeIds
      = Matcher.matchQuery today q2 records activeIds := by
  rw [Matcher.matchQuery, Matcher.matchQuery, normalizeText_congr h]

/-- C3 witness: the spec's example — "APFEL" and "äpfel" return the same
results on a catalog holding a record named "Äpfel", and that record is
found. -/
theorem matchQuery_fold_insensitive_witness :
    Matcher.matchQuery 0 "APFEL" [sampleApfel] ["r1"]
        = Matcher.matchQuery 0 "äpfel" [sampleApfel] ["r1"] ∧
    Matcher.matchQuery 0 "äpfel" [sampleApfel] ["r1"] = [sampleApfel] :=
  ⟨matchQuery_fold_insensitive 0 [sampleApfel] ["r1"] "APFEL" "äpfel" (by decide),
   by decide⟩

theorem charFold_of_whitespace {c : Char} (h : c.isWhitespace) : charFold c = c := by
  rw [charFold, if_pos h]

theorem splitRuns_all_ws :
    ∀ l : List Char, (∀ c ∈ l, c.isWhitespace) → ∀ w ∈ splitRuns l, w = []
  | [], _, w, hw => by simp [splitRuns] at hw
  | c :: t, h, w, hw => by
    have hc : c.isWhitespace := h c (List.mem_cons_self c t)
    have hstep : splitRuns (c :: t) = [] :: splitRuns t := by
      simp [splitRuns, hc]
    rw [hstep] at hw
    rcases List.mem_cons.mp hw with h1 | h1
    · exact h1
    · exact splitRuns_all_ws t (fun d hd => h d (List.mem_cons_of_mem _ hd)) w h1

theorem wordsOf_all_ws {l : List Char} (h : ∀ c ∈ l, c.isWhitespace) :
    wordsOf l = [] := by
  rw [wordsOf, List.filter_eq_nil_iff]
  intro w hw
  rw [splitRuns_all_ws l h w hw]
  simp

theorem normalizeChars_all_ws {l : List Char} (h : ∀ c ∈ l, c.isWhitespace) :
    normalizeChars l = [] := by
  rw [normalizeChars, wordsOf_all_ws]
  · rfl
  intro c hc
  obtain ⟨d, hd, rfl⟩ := List.mem_map.mp hc
  rw [charFold_of_whitespace (h d hd)]
  exact h d hd

/-- C8: invoking the Matcher with an empty or whitespace-only query returns
the empty sequence (for every record set and active-retailer set) rather than
signaling an error. -/
theorem matchQuery_whitespace_empty (today : Nat) (q : String)
    (records : List PriceRecord) (activeIds : List String)
    (h : ∀ c ∈ q.toList, c.isWhitespace) :
    Matcher.matchQuery today q records activeIds = [] := by
  rw [Matcher.matchQuery, normalizeText, normalizeChars_all_ws h]
  rfl

/-- C8 witness: the empty query and a whitespace-only query both return no
records on a non-empty catalog. -/
theorem matchQuery_whitespace_empty_witness :
    Matcher.matchQuery 7 "" [sampleApfel] ["r1"] = [] ∧
    Matcher.matchQuery 7 "  " [sampleApfel] ["r1"] = [] :=
  ⟨matchQuery_whitespace_empty 7 "" [sampleApfel] ["r1"] (by decide),
   matchQuery_whitespace_empty 7 "  " [sampleApfel] ["r1"] (by decide)⟩

/-! ## Frontend claims -/

/-- C4: the savings shown by CompareScreen equal the maximum result price
minus the cheapest price, and `calculateSavings` returns zero whenever fewer
than two results are present. -/
theorem calculateSavings_spec (cheapest : Option CompareResult)
    (results : List CompareResult) :
    (∀ c, cheapest = some c → 2 ≤ results.length →
      calculateSavings cheapest results c.price
        = maxPrice (results.map CompareResult.price) - c.price) ∧
    ∀ p : ℤ, results.length < 2 → calculateSavings cheapest results p = 0 := by
  constructor
  · intro c hc hlen
    rw [calculateSavings, if_neg]
    rintro (h | h)
    · rw [hc] at h
      exact Option.some_ne_none c h
    · omega
  · intro p hlen
    rw [calculateSavings, if_pos (Or.inr hlen)]

/-- C4 witness: on the two-row example the savings at the cheapest price are
the maximum minus the cheapest price; with a single row the function returns
zero. -/
theorem calculateSavings_spec_witness :
    calculateSavings (some resCheap) [resCheap, resDear] resCheap.price
        = maxPrice ([resCheap, resDear].map CompareResult.price) - resCheap.price ∧
    calculateSavings (some resCheap) [resCheap] 5 = 0 :=
  ⟨(calculateSavings_spec (some resCheap) [resCheap, resDear]).1 resCheap rfl (by decide),
   (calculateSavings_spec (some resCheap) [resCheap]).2 5 (by decide)⟩

theorem foldl_add_contribution (g : ShoppingListItem → ℤ) :
    ∀ (l : List ShoppingListItem) (init : ℤ),
      l.foldl (fun t it => t + g it) init = init + (l.map g).sum
  | [], init => by simp
  | it :: rest, init => by
    rw [List.foldl_cons, foldl_add_contribution g rest, List.map_cons, List.sum_cons,
      add_assoc]

/-- C9: the estimated total computed by `calculateTotalSavings` is the sum
over all items — checked and unchecked alike — of (best price, or 0 when
absent) times quantity; despite its name it is a total cost. -/
theorem calculateTotalSavings_spec (items : List ShoppingListItem) :
    calculateTotalSavings items
        = (items.map (fun it => it.best_price.getD 0 * (it.quantity : ℤ))).sum ∧
    ∀ f : ShoppingListItem → Bool,
      calculateTotalSavings (items.map (fun it => { it with checked := f it }))
        = calculateTotalSavings items := by
  have key : ∀ l : List ShoppingListItem,
      calculateTotalSavings l
        = (l.map (fun it => it.best_price.getD 0 * (it.quantity : ℤ))).sum := by
    intro l
    rw [calculateTotalSavings, foldl_add_contribution, zero_add]
  refine ⟨key items, ?_⟩
  intro f
  rw [key, key, List.map_map]
  rfl

theorem toggleItem_length :
    ∀ (l : List ShoppingListItem) (i : Nat), (toggleItem l i).length = l.length
  | [], _ => rfl
  | _ :: _, 0 => rfl
  | _ :: rest, n + 1 => by
    rw [toggleItem, List.length_cons, List.length_cons, toggleItem_length rest n]

theorem toggleItem_getElem_ne :
    ∀ (l : List ShoppingListItem) (i j : Nat), j ≠ i →
      (toggleItem l i)[j]? = l[j]?
  | [], _, _, _ => rfl
  | _ :: _, 0, 0, h => absurd rfl h
  | _ :: _, 0, _ + 1, _ => by rw [toggleItem, List.getElem?_cons_succ, List.getElem?_cons_succ]
  | _ :: _, _ + 1, 0, _ => by rw [toggleItem, List.getElem?_cons_zero, List.getElem?_cons_zero]
  | _ :: rest, n + 1, j + 1, h => by
    rw [toggleItem, List.getElem?_cons_succ, List.getElem?_cons_succ]
    exact toggleItem_getElem_ne rest n j (fun hj => h (by rw [hj]))

theorem toggleItem_getElem_self :
    ∀ (l : List ShoppingListItem) (i : Nat) (it : ShoppingListItem), l[i]? = some it →
      (toggleItem l i)[i]? = some { it with checked := !it.checked }
  | [], i, it, h => by rw [List.getElem?_nil] at h; exact Option.noConfusion h
  | x :: rest, 0, it, h => by
    rw [List.getElem?_cons_zero] at h
    rw [toggleItem, List.getElem?_cons_zero, Option.some.inj h]
  | x :: rest, n + 1, it, h => by
    rw [List.getElem?_cons_succ] at h
    rw [toggleItem, List.getElem?_cons_succ]
    exact toggleItem_getElem_self rest n it h

/-- C10: for a valid index, `toggleItem` flips only the `checked` flag of the
item at that index: the list keeps its length and order, every other item is
unchanged, and the toggled item keeps its name, quantity, best price and best
supermarket. -/
theorem toggleItem_frame (items : List ShoppingListItem) (i : Nat)
    (hi : i < items.length) :
    (toggleItem items i).length = items.length ∧
    (∀ j, j ≠ i → (toggleItem items i)[j]? = items[j]?) ∧
    ∀ it, items[i]? = some it →
      (toggleItem items i)[i]? = some { it with checked := !it.checked } :=
  ⟨toggleItem_length items i,
   fun j hj => toggleItem_getElem_ne items i j hj,
   fun it h => toggleItem_getElem_self items i it h⟩

/-- C10 witness: toggling index 0 of a two-item list leaves the second item
and the length unchanged and only negates the first item's checked flag. -/
theorem toggleItem_frame_witness :
    (toggleItem [itemMilk, itemBread] 0).length = 2 ∧
    (toggleItem [itemMilk, itemBread] 0)[1]? = some itemBread ∧
    (toggleItem [itemMilk, itemBread] 0)[0]?
        = some { itemMilk with checked := !itemMilk.checked } :=
  ⟨(toggleItem_frame [itemMilk, itemBread] 0 (by decide)).1.trans (by decide),
   ((toggleItem_frame [itemMilk, itemBread] 0 (by decide)).2.1 1 (by decide)).trans (by decide),
   (toggleItem_frame [itemMilk, itemBread] 0 (by decide)).2.2 itemMilk (by decide)⟩

end PriceSpy
